import Mathlib

/-!
Verification of `src/test/objectstore_bench.cc` (osbench).

This file shallowly embeds the pure computational core of the benchmark:

* `byte_units::parse`  (size-string parsing with K/M/G/T suffixes),
* `operator<<(std::ostream&, const byte_units&)`  (the unit-display loop),
* the per-cycle block-write sequence built by `osbench_worker`,
* the starting offsets `i * cfg.size / cfg.threads` chosen by `main`,
* the throughput statistics computed by `main` after the workers join,
* the `C_NotifyCond` / condition-variable completion handshake, as a
  finite state machine over all interleavings of the two threads.

Machine integers (`size_t`, `unsigned long long`, `uint64_t`) are modelled
as `Nat` with explicit reduction `% 2 ^ 64` at the operations where the
C++ code can wrap.  Fallible code is modelled with `Option`.
-/

/-- The digit-accumulation loop of `strtoull(val, &endptr, 10)`: the value
of a list of decimal digit characters, most significant first.  (The real
`strtoull` clamps at `ULLONG_MAX` and reports `ERANGE`; `byte_units.parse`
below rejects that case, so accumulating the exact value is faithful.) -/
def digitsVal (ds : List Char) : Nat :=
  ds.foldl (fun a c => a * 10 + (c.toNat - 48)) 0

/-- The `switch (*endptr)` of `byte_units::parse`, restricted to the first
character: the cumulative left-shift produced by the fall-through cases
`t/T → 40`, `g/G → 30`, `m/M → 20`, `k/K → 10`.  Any other non-NUL
character hits `default: return false`, modelled as `none`.  Note the
switch has no case for `b`/`B`. -/
def suffixShift (c : Char) : Option Nat :=
  if c = 't' ∨ c = 'T' then some 40
  else if c = 'g' ∨ c = 'G' then some 30
  else if c = 'm' ∨ c = 'M' then some 20
  else if c = 'k' ∨ c = 'K' then some 10
  else none

/-- The whole suffix handling of `byte_units::parse` on the text that
follows the digits: empty text (`case 0`) means shift 0; a recognised
suffix letter must be the last character (`if (*++endptr) return false`). -/
def lshiftOf : List Char → Option Nat
  | [] => some 0
  | c :: rest =>
    match suffixShift c with
    | some sh => if rest = [] then some sh else none
    | none => none

/-- Shallow embedding of `bool byte_units::parse(const std::string &val)`.
`none` models `return false`.  The steps mirror the source: `strtoull`
consumes the leading digits (`ERANGE`, i.e. a value of `2^64` or more, is
rejected; `endptr == val.c_str()`, i.e. no digit consumed, is rejected),
the suffix switch computes `lshift`, the overflow test
`ret & ~((1ull << (limits::digits - lshift)) - 1)` (with
`limits::digits = 64`, complement taken in 64 bits) rejects values whose
top `lshift` bits are set, and the result is `ret << lshift`.
Leading whitespace/sign handling of `strtoull` is not modelled: the claims
quantify over strings that start with a digit. -/
def parseBytes (val : String) : Option Nat :=
  let ds := val.data.takeWhile Char.isDigit
  let rest := val.data.dropWhile Char.isDigit
  let ret := digitsVal ds
  if 2 ^ 64 ≤ ret then none
  else if ds = [] then none
  else
    match lshiftOf rest with
    | none => none
    | some lshift =>
      if ret &&& (2 ^ 64 - 1 - ((1 <<< (64 - lshift)) - 1)) ≠ 0 then none
      else some (ret <<< lshift)

/-- The unit-name table `units[] = { "B", "KB", "MB", "GB", "TB" }` of
`operator<<(std::ostream&, const byte_units&)`. -/
def unitsTable : List String := ["B", "KB", "MB", "GB", "TB"]

/-- The condition under which the display loop performs one more division,
apart from the `unit < max_units` cap: `v >= 1024` and not the break
condition `v < 1048576 && v % 1024 != 0`. -/
def fmtCont (v : Nat) : Prop :=
  1024 ≤ v ∧ (v % 1024 = 0 ∨ 1048576 ≤ v)

instance (v : Nat) : Decidable (fmtCont v) := by
  unfold fmtCont; infer_instance

/-- The `while (v >= 1024 && unit < max_units)` loop of
`operator<<(std::ostream&, const byte_units&)`, with `max_units = 5`:
break when `v < 1048576 && v % 1024 != 0`, otherwise `v >>= 10; unit++`.
Returns the final `(v, unit)`. -/
def formatLoop (v unit : Nat) : Nat × Nat :=
  if h : 1024 ≤ v ∧ unit < 5 then
    if v < 1048576 ∧ v % 1024 ≠ 0 then (v, unit)
    else formatLoop (v >>> 10) (unit + 1)
  else (v, unit)
termination_by 5 - unit
decreasing_by omega

/-- The full rendering `out << v << ' ' << units[unit]`.  The C array
access `units[unit]` is modelled as `unitsTable[unit]?`: an out-of-bounds
index yields `none` (in C++ it is an out-of-bounds read, undefined
behavior). -/
def formatBytes (v : Nat) : Option String :=
  let r := formatLoop v 0
  (unitsTable[r.2]?).map (fun u => toString r.1 ++ " " ++ u)

/-- The block length chosen by the loop body of `osbench_worker`:
`size_t count = len < cfg.block_size ? len : (size_t)cfg.block_size`. -/
def writeCount (block len : Nat) : Nat :=
  if len < block then len else block

/-- The offset update of the loop body: `offset += count` (a `uint64_t`
addition, hence `% 2 ^ 64`) followed by `if (offset > size) offset -= size`. -/
def nextOff (size offset count : Nat) : Nat :=
  if (offset + count) % 2 ^ 64 > size
  then (offset + count) % 2 ^ 64 - size
  else (offset + count) % 2 ^ 64

/-- One repeat cycle of `osbench_worker`: the `while (len)` loop that
emits `(offset, count)` write pairs and then advances
`offset = nextOff ...; len -= count`.
The C++ loop does not terminate when `block = 0` (then `count = 0`); the
`fuel` argument bounds the recursion, and at the call site (`osbCycle`)
`fuel = len` suffices for every `block > 0` since each iteration removes
at least one byte. -/
def buildCycle (size block : Nat) : Nat → Nat → Nat → List (Nat × Nat)
  | 0, _, _ => []
  | fuel + 1, offset, len =>
    if len = 0 then []
    else
      (offset, writeCount block len) ::
        buildCycle size block fuel (nextOff size offset (writeCount block len))
          (len - writeCount block len)

/-- The write sequence of one repeat cycle of `osbench_worker`, starting
from `starting_offset`, with `len` initialised to `cfg.size`. -/
def osbCycle (size block startingOff : Nat) : List (Nat × Nat) :=
  buildCycle size block size startingOff size

/-- The starting offset `i * cfg.size / cfg.threads` computed in `main`
when spawning worker `i`.  The multiplication is `size_t` arithmetic,
hence `% 2 ^ 64`. -/
def startingOffset (size threads i : Nat) : Nat :=
  i * size % 2 ^ 64 / threads

/-- `byte_units total = cfg.size * cfg.repeats * cfg.threads` in `main`
(`size_t` arithmetic). -/
def benchTotal (size repeats threads : Nat) : Nat :=
  size * repeats * threads % 2 ^ 64

/-- `byte_units rate = (1000000LL * total) / duration.count()` in `main`.
The product is 64-bit arithmetic; there is no guard against
`duration.count() == 0` (in C++ that division is undefined behavior; the
`Nat` model yields the junk value 0). -/
def benchRate (total elapsed : Nat) : Nat :=
  1000000 * total % 2 ^ 64 / elapsed

/-- `size_t iops = (1000000LL * total / cfg.block_size) / duration.count()`
in `main`: note the code multiplies by 1000000 before dividing by
`block_size`.  Again no guard against a zero divisor. -/
def benchIops (total block elapsed : Nat) : Nat :=
  1000000 * total % 2 ^ 64 / block / elapsed

section GateModel

/-- Program counter of the signalling side (`C_NotifyCond::finish`):
`s0` before `lock_guard lock(*mutex)`, `s1` holding the mutex, `sDone`
after `*done = true; cond->notify_one();` and release. -/
inductive SigPC : Type
  | s0
  | s1
  | sDone
deriving DecidableEq

/-- Program counter of the waiting side (`osbench_worker`):
`w0` before `unique_lock lock(mutex)`, `w1` holding the mutex about to
evaluate the predicate `done`, `wSleep` sleeping on the condition variable
(mutex atomically released), `wWake` notified and reacquiring the mutex,
`wDone` returned from `cond.wait(lock, pred)`. -/
inductive WtrPC : Type
  | w0
  | w1
  | wSleep
  | wWake
  | wDone
deriving DecidableEq

/-- Who holds the mutex. -/
inductive LockSt : Type
  | free
  | bySig
  | byWtr
deriving DecidableEq

/-- Shared state of one `C_NotifyCond` handshake: the `bool done` flag,
the mutex, and the two program counters. -/
structure GateSt where
  done : Bool
  lock : LockSt
  sig : SigPC
  wtr : WtrPC
deriving DecidableEq

/-- Steps of `C_NotifyCond::finish`: acquire the mutex; then, atomically
while holding it, set `*done = true`, `notify_one()` (which moves a
sleeping waiter to the reacquiring state), and release. -/
def sigSteps (g : GateSt) : List GateSt :=
  match g.sig, g.lock with
  | .s0, .free => [{ g with sig := .s1, lock := .bySig }]
  | .s1, .bySig =>
    [{ g with
        sig := .sDone
        lock := .free
        done := true
        wtr := if g.wtr = .wSleep then .wWake else g.wtr }]
  | _, _ => []

/-- Steps of the waiter `cond.wait(lock, [&done](){ return done; })`:
acquire the mutex; under the mutex test `done` — if set, return (releasing
the mutex at scope exit), otherwise atomically release the mutex and
sleep; once notified, reacquire the mutex and test again. -/
def wtrSteps (g : GateSt) : List GateSt :=
  match g.wtr, g.lock with
  | .w0, .free => [{ g with wtr := .w1, lock := .byWtr }]
  | .w1, .byWtr =>
    if g.done then [{ g with wtr := .wDone, lock := .free }]
    else [{ g with wtr := .wSleep, lock := .free }]
  | .wWake, .free => [{ g with wtr := .w1, lock := .byWtr }]
  | _, _ => []

/-- All successor states: either thread may take its enabled step. -/
def gateNext (g : GateSt) : List GateSt := sigSteps g ++ wtrSteps g

/-- Initial state: `done = false`, mutex free, neither thread started. -/
def gateInit : GateSt := ⟨false, .free, .s0, .w0⟩

/-- The state in which `signal()` has completed before `wait()` begins. -/
def afterSignal : GateSt := ⟨true, .free, .sDone, .w0⟩

/-- One round of reachability expansion. -/
def stepAll (l : List GateSt) : List GateSt :=
  (l ++ (l.map gateNext).flatten).dedup

/-- Iterated reachability from the initial state. -/
def gateReachN : Nat → List GateSt
  | 0 => [gateInit]
  | n + 1 => stepAll (gateReachN n)

/-- The reachable states of the handshake (10 rounds are more than the
diameter; closure is proved, not assumed). -/
def gateReach : List GateSt := gateReachN 10

/-- Signaller progress measure. -/
def sigN : SigPC → Nat
  | .s0 => 2
  | .s1 => 1
  | .sDone => 0

/-- Waiter progress measure (the waiter passes `w1` at most twice: once
with `done = false`, once with `done = true`). -/
def wtrN : Bool → WtrPC → Nat
  | _, .w0 => 5
  | false, .w1 => 4
  | true, .w1 => 1
  | _, .wSleep => 3
  | _, .wWake => 2
  | _, .wDone => 0

/-- Rank decreasing along every transition: the handshake terminates. -/
def gateRank (g : GateSt) : Nat := 3 * sigN g.sig + wtrN g.done g.wtr

end GateModel

/-! ### Helper lemmas about bit masks and digit strings -/

lemma land_high_zero (n m k : Nat) (h : n < 2 ^ k) : n &&& (m <<< k) = 0 := by
  apply Nat.eq_of_testBit_eq
  intro i
  rw [Nat.testBit_land, Nat.zero_testBit]
  rcases lt_or_le i k with hik | hik
  · have hm : (m <<< k).testBit i = false := by
      rw [Nat.testBit_shiftLeft]
      simp [Nat.not_le.mpr hik]
    simp [hm]
  · have hn : n.testBit i = false :=
      Nat.testBit_lt_two_pow (lt_of_lt_of_le h (Nat.pow_le_pow_right (by norm_num) hik))
    simp [hn]

lemma land_high_ne_zero (n k s : Nat) (h1 : 2 ^ k ≤ n) (h2 : n < 2 ^ (k + s)) :
    n &&& ((2 ^ s - 1) <<< k) ≠ 0 := by
  have hkpos : (0:Nat) < 2 ^ k := Nat.two_pow_pos k
  have hn : n ≠ 0 := by omega
  have hki : k ≤ Nat.log2 n := by
    by_contra hc
    push_neg at hc
    exact absurd ((Nat.log2_lt hn).mp hc) (Nat.not_lt.mpr h1)
  have his : Nat.log2 n < k + s := (Nat.log2_lt hn).mpr h2
  have hipos : (0:Nat) < 2 ^ Nat.log2 n := Nat.two_pow_pos _
  have hbitn : n.testBit (Nat.log2 n) = true := by
    rw [Nat.testBit_to_div_mod]
    have hle : 2 ^ Nat.log2 n ≤ n := Nat.log2_self_le hn
    have hlt : n < 2 ^ (Nat.log2 n + 1) := Nat.lt_log2_self
    rw [pow_succ] at hlt
    have hdiv1 : 1 ≤ n / 2 ^ Nat.log2 n := (Nat.le_div_iff_mul_le hipos).mpr (by omega)
    have hdiv2 : n / 2 ^ Nat.log2 n < 2 := (Nat.div_lt_iff_lt_mul hipos).mpr (by omega)
    have : n / 2 ^ Nat.log2 n = 1 := by omega
    simp [this]
  have hbitm : ((2 ^ s - 1) <<< k).testBit (Nat.log2 n) = true := by
    rw [Nat.testBit_shiftLeft, Nat.testBit_two_pow_sub_one]
    have hd1 : Nat.log2 n ≥ k := hki
    simp [hd1]
    omega
  intro hz
  have hbit := Nat.testBit_land n ((2 ^ s - 1) <<< k) (Nat.log2 n)
  rw [hz, Nat.zero_testBit, hbitn, hbitm] at hbit
  simp at hbit

/-- The source's overflow mask `~((1ull << (64 - lshift)) - 1)` (complement
in 64 bits) equals the block of the top `sh` bits. -/
lemma maskEq (sh : Nat) (h : sh ≤ 64) :
    2 ^ 64 - 1 - ((1 <<< (64 - sh)) - 1) = (2 ^ sh - 1) <<< (64 - sh) := by
  rw [Nat.one_shiftLeft, Nat.shiftLeft_eq]
  have h2 : (2:Nat) ^ 64 = 2 ^ sh * 2 ^ (64 - sh) := by
    rw [← pow_add]
    congr 1
    omega
  have ha : (1:Nat) ≤ 2 ^ sh := Nat.one_le_two_pow
  have hb : (1:Nat) ≤ 2 ^ (64 - sh) := Nat.one_le_two_pow
  rw [Nat.sub_one_mul, h2]
  have hble : 2 ^ (64 - sh) ≤ 2 ^ sh * 2 ^ (64 - sh) := Nat.le_mul_of_pos_left _ ha
  generalize 2 ^ sh * 2 ^ (64 - sh) = p at *
  omega

lemma takeWhile_dropWhile_append (p : Char → Bool) (xs ys : List Char)
    (hx : ∀ x ∈ xs, p x = true) (hy : ∀ y, ys.head? = some y → p y = false) :
    (xs ++ ys).takeWhile p = xs ∧ (xs ++ ys).dropWhile p = ys := by
  induction xs with
  | nil =>
    cases ys with
    | nil => simp
    | cons y t =>
      have hpy := hy y rfl
      simp [List.takeWhile_cons, List.dropWhile_cons, hpy]
  | cons x xs ih =>
    have hpx : p x = true := hx x (by simp)
    have ihr := ih (fun a ha => hx a (by simp [ha]))
    simp [List.takeWhile_cons, List.dropWhile_cons, hpx, ihr.1, ihr.2]

lemma suffixShift_cases (c : Char) (sh : Nat) (h : suffixShift c = some sh) :
    sh = 40 ∨ sh = 30 ∨ sh = 20 ∨ sh = 10 := by
  unfold suffixShift at h
  split_ifs at h <;> simp_all

lemma suffixShift_not_digit (c : Char) (sh : Nat) (h : suffixShift c = some sh) :
    c.isDigit = false := by
  unfold suffixShift at h
  split_ifs at h with h1 h2 h3 h4
  · rcases h1 with rfl | rfl <;> decide
  · rcases h2 with rfl | rfl <;> decide
  · rcases h3 with rfl | rfl <;> decide
  · rcases h4 with rfl | rfl <;> decide

/-! ### Claims C3 and C4: `byte_units::parse` -/

/-- C3 (counterexample): the claim admits the suffix `B`, but the suffix
switch of `byte_units::parse` has no case for `b`/`B`, so `"1B"` hits
`default: return false` instead of parsing to `1 <<< 0 = 1`. -/
theorem c3_counterexample : ¬ parseBytes (String.mk ['1', 'B']) = some 1 := by
  decide

/-- C3 (amended): for every nonempty decimal digit string followed by one
suffix in {K, M, G, T} (case-insensitive; the suffix `B` is rejected by
the code) whose shifted value fits in 64 bits, `byte_units::parse`
succeeds and returns the parsed number left-shifted by the suffix's
cumulative shift amount (10 for K, 20 for M, 30 for G, 40 for T, as
recorded by `suffixShift`). -/
theorem c3_parse_shift_amended (ds : List Char) (c : Char) (sh : Nat)
    (hne : ds ≠ []) (hd : ∀ x ∈ ds, x.isDigit = true)
    (hsuf : suffixShift c = some sh)
    (hfit : digitsVal ds < 2 ^ (64 - sh)) :
    parseBytes (String.mk (ds ++ [c])) = some (digitsVal ds <<< sh) := by
  have hsh : sh ≤ 64 := by
    rcases suffixShift_cases c sh hsuf with rfl | rfl | rfl | rfl <;> omega
  have hcd := suffixShift_not_digit c sh hsuf
  have hsplit := takeWhile_dropWhile_append Char.isDigit ds [c] hd
    (by intro y hy; simp at hy; subst hy; exact hcd)
  have h64 : digitsVal ds < 2 ^ 64 :=
    lt_of_lt_of_le hfit (Nat.pow_le_pow_right (by norm_num) (by omega))
  have hl : lshiftOf [c] = some sh := by simp [lshiftOf, hsuf]
  have hland : digitsVal ds &&& (2 ^ 64 - 1 - ((1 <<< (64 - sh)) - 1)) = 0 := by
    rw [maskEq sh hsh]
    exact land_high_zero _ _ _ hfit
  have hdata : (String.mk (ds ++ [c])).data = ds ++ [c] := rfl
  simp only [parseBytes, hdata, hsplit.1, hsplit.2]
  rw [if_neg (by omega), if_neg hne, hl]
  norm_num at hland
  simp [hland]

/-- C3 (witness): `parse("123k")` succeeds with value `123 << 10`. -/
theorem c3_parse_shift_witness :
    digitsVal ['1', '2', '3'] = 123 ∧
      parseBytes (String.mk ['1', '2', '3', 'k']) = some (digitsVal ['1', '2', '3'] <<< 10) :=
  ⟨by decide,
   c3_parse_shift_amended ['1', '2', '3'] 'k' 10 (by decide) (by decide) (by decide) (by decide)⟩

/-- C4: for every input whose parsed unshifted number has any of its top
`shift` bits set (i.e. is at least `2 ^ (64 - shift)`), `byte_units::parse`
returns failure rather than truncating: the overflow mask test
`ret & ~((1ull << (64 - lshift)) - 1)` fires. -/
theorem c4_overflow_rejected (ds : List Char) (c : Char) (sh : Nat)
    (hne : ds ≠ []) (hd : ∀ x ∈ ds, x.isDigit = true)
    (hsuf : suffixShift c = some sh)
    (h64 : digitsVal ds < 2 ^ 64)
    (hhi : 2 ^ (64 - sh) ≤ digitsVal ds) :
    parseBytes (String.mk (ds ++ [c])) = none := by
  have hsh : sh ≤ 64 := by
    rcases suffixShift_cases c sh hsuf with rfl | rfl | rfl | rfl <;> omega
  have hcd := suffixShift_not_digit c sh hsuf
  have hsplit := takeWhile_dropWhile_append Char.isDigit ds [c] hd
    (by intro y hy; simp at hy; subst hy; exact hcd)
  have hl : lshiftOf [c] = some sh := by simp [lshiftOf, hsuf]
  have hland : digitsVal ds &&& (2 ^ 64 - 1 - ((1 <<< (64 - sh)) - 1)) ≠ 0 := by
    rw [maskEq sh hsh]
    exact land_high_ne_zero _ _ _ hhi (by rw [Nat.sub_add_cancel hsh]; exact h64)
  have hdata : (String.mk (ds ++ [c])).data = ds ++ [c] := rfl
  simp only [parseBytes, hdata, hsplit.1, hsplit.2]
  rw [if_neg (by omega), if_neg hne, hl]
  norm_num at hland
  simp [hland]

/-- C4 (witness): `parse("18446744073709551615K")` (that is,
`2^64 - 1` with suffix K, whose top 10 bits are set) fails. -/
theorem c4_overflow_rejected_witness :
    parseBytes (String.mk
      ['1','8','4','4','6','7','4','4','0','7','3','7','0','9','5','5','1','6','1','5','K'])
      = none :=
  c4_overflow_rejected
    ['1','8','4','4','6','7','4','4','0','7','3','7','0','9','5','5','1','6','1','5'] 'K' 10
    (by decide) (by decide) (by decide) (by decide) (by decide)


/-! ### Claims C1 and C2: the worker's per-cycle write sequence -/

lemma writeCount_le (block len : Nat) : writeCount block len ≤ len ∨ writeCount block len = block := by
  unfold writeCount
  split <;> omega

lemma writeCount_bounds (block len : Nat) (hb : 0 < block) (hl : 0 < len) :
    1 ≤ writeCount block len ∧ writeCount block len ≤ len := by
  unfold writeCount
  split <;> omega

lemma writeCount_eq_min (block len : Nat) : writeCount block len = min block len := by
  unfold writeCount
  rw [Nat.min_def]
  split <;> split <;> omega

lemma buildCycle_len_zero (size block fuel off : Nat) :
    buildCycle size block fuel off 0 = [] := by
  cases fuel <;> simp [buildCycle]

lemma buildCycle_sum (size block : Nat) (hb : 0 < block) :
    ∀ fuel off len, len ≤ fuel →
      ((buildCycle size block fuel off len).map Prod.snd).sum = len := by
  intro fuel
  induction fuel with
  | zero =>
    intro off len h
    have : len = 0 := by omega
    subst this
    simp [buildCycle]
  | succ f ih =>
    intro off len hlen
    by_cases h0 : len = 0
    · subst h0; simp [buildCycle]
    · have hc := writeCount_bounds block len hb (by omega)
      simp only [buildCycle, if_neg h0, List.map_cons, List.sum_cons]
      rw [ih _ (len - writeCount block len) (by omega)]
      omega

lemma buildCycle_getElem (size block : Nat) (hb : 0 < block) :
    ∀ fuel off len, len ≤ fuel →
      ∀ i, i < ((buildCycle size block fuel off len).map Prod.snd).length →
        ((buildCycle size block fuel off len).map Prod.snd)[i]? =
          some (min block
            (len - (((buildCycle size block fuel off len).map Prod.snd).take i).sum)) := by
  intro fuel
  induction fuel with
  | zero =>
    intro off len hlen i h
    have : len = 0 := by omega
    subst this
    simp [buildCycle] at h
  | succ f ih =>
    intro off len hlen i h
    by_cases h0 : len = 0
    · subst h0; simp [buildCycle] at h
    · have hc := writeCount_bounds block len hb (by omega)
      simp only [buildCycle, if_neg h0, List.map_cons] at h ⊢
      cases i with
      | zero =>
        simp only [List.getElem?_cons_zero, List.take_zero, List.sum_nil, Nat.sub_zero]
        rw [← writeCount_eq_min]
      | succ j =>
        simp only [List.getElem?_cons_succ, List.take_succ_cons, List.sum_cons]
        simp only [List.length_cons, Nat.succ_lt_succ_iff] at h
        rw [ih _ (len - writeCount block len) (by omega) j h]
        congr 1
        omega

lemma buildCycle_last (size block : Nat) (hb : 0 < block) :
    ∀ fuel off len, 0 < len → len ≤ fuel →
      ((buildCycle size block fuel off len).map Prod.snd).getLast? =
        some (if len % block = 0 then block else len % block) := by
  intro fuel
  induction fuel with
  | zero => intro off len hpos hlen; omega
  | succ f ih =>
    intro off len hpos hlen
    rcases lt_trichotomy len block with hlb | hlb | hlb
    · have hmod : len % block = len := Nat.mod_eq_of_lt hlb
      have hcount : writeCount block len = len := by unfold writeCount; split <;> omega
      simp only [buildCycle, if_neg (by omega : ¬ len = 0), hcount, Nat.sub_self,
        buildCycle_len_zero, List.map_cons, List.map_nil]
      rw [hmod, if_neg (by omega)]
      rfl
    · have hcount : writeCount block len = block := by unfold writeCount; split <;> omega
      simp only [buildCycle, if_neg (by omega : ¬ len = 0), hcount, List.map_cons]
      rw [show len - block = 0 by omega, buildCycle_len_zero, List.map_nil,
        if_pos (by rw [hlb]; exact Nat.mod_self block)]
      rfl
    · have hcount : writeCount block len = block := by unfold writeCount; split <;> omega
      simp only [buildCycle, if_neg (by omega : ¬ len = 0), hcount, List.map_cons]
      have htail := ih (nextOff size off block) (len - block) (by omega) (by omega)
      have hmod : (len - block) % block = len % block := by
        conv_rhs => rw [show len = (len - block) + block by omega]
        rw [Nat.add_mod_right]
      rw [hmod] at htail
      revert htail
      cases ((buildCycle size block f (nextOff size off block) (len - block)).map Prod.snd) with
      | nil => intro htail; simp at htail
      | cons a l => intro htail; rw [List.getLast?_cons_cons]; exact htail

lemma nextOff_le (size off count : Nat) (h64 : size < 2 ^ 64) (hoff : off ≤ size)
    (hcnt : count ≤ size) : nextOff size off count ≤ size := by
  unfold nextOff
  have h2p : (2:Nat) ^ 64 = 18446744073709551616 := by norm_num
  rw [h2p] at h64 ⊢
  split <;> omega

lemma buildCycle_fst_le (size block : Nat) (h64 : size < 2 ^ 64) :
    ∀ fuel off len, off ≤ size → len ≤ size →
      ∀ p ∈ buildCycle size block fuel off len, p.1 ≤ size := by
  intro fuel
  induction fuel with
  | zero => intro off len _ _ p hp; simp [buildCycle] at hp
  | succ f ih =>
    intro off len hoff hlen p hp
    by_cases h0 : len = 0
    · subst h0; simp [buildCycle] at hp
    · simp only [buildCycle, if_neg h0, List.mem_cons] at hp
      rcases hp with rfl | hp
      · exact hoff
      · have hcle : writeCount block len ≤ len := by unfold writeCount; split <;> omega
        exact ih (nextOff size off (writeCount block len)) (len - writeCount block len)
          (nextOff_le size off _ h64 hoff (by omega)) (by omega) p hp

/-- C1 (counterexample): with `total_size = 8`, `block_size = 4`,
`starting_offset = 4` the cycle emits offsets `[4, 8]`: the code wraps
only when `offset > cfg.size` holds strictly, so the second write is
emitted at offset `8 = total_size`, violating `offset < total_size`. -/
theorem c1_counterexample : ¬ (∀ p ∈ osbCycle 8 4 4, p.1 < 8) := by decide

/-- C1 (amended): the worker subtracts `total_size` only when the running
offset strictly exceeds it, so every `(offset, length)` pair emitted in
one repeat cycle satisfies `0 ≤ offset ≤ total_size` (and the bound
`total_size` itself is attained for some configurations). -/
theorem c1_offsets_bounded_amended (size block startingOff : Nat)
    (h64 : size < 2 ^ 64) (hb : 0 < block) (ho : startingOff < size) :
    ∀ p ∈ osbCycle size block startingOff, p.1 ≤ size :=
  buildCycle_fst_le size block h64 size startingOff size (by omega) (le_refl size)

/-- C1 (witness): the amended bound applied to the counterexample
configuration. -/
theorem c1_offsets_bounded_witness :
    (8:Nat) < 2 ^ 64 ∧ (0:Nat) < 4 ∧ (4:Nat) < 8 ∧ ∀ p ∈ osbCycle 8 4 4, p.1 ≤ 8 :=
  ⟨by decide, by decide, by decide,
   c1_offsets_bounded_amended 8 4 4 (by decide) (by decide) (by decide)⟩

/-- C2: for every positive `total_size` and `block_size` (`total_size`
not necessarily a multiple of `block_size`) and every starting offset,
the write lengths of one repeat cycle are each
`min(block_size, remaining)`, sum to exactly `total_size`, and the last
length is `total_size mod block_size` when non-zero, else `block_size`. -/
theorem c2_cycle_lengths (size block startingOff : Nat) (hb : 0 < block) (hs : 0 < size) :
    (((osbCycle size block startingOff).map Prod.snd).sum = size) ∧
    (∀ i, i < ((osbCycle size block startingOff).map Prod.snd).length →
      ((osbCycle size block startingOff).map Prod.snd)[i]? =
        some (min block
          (size - (((osbCycle size block startingOff).map Prod.snd).take i).sum))) ∧
    (((osbCycle size block startingOff).map Prod.snd).getLast? =
      some (if size % block = 0 then block else size % block)) :=
  ⟨buildCycle_sum size block hb size startingOff size (le_refl size),
   buildCycle_getElem size block hb size startingOff size (le_refl size),
   buildCycle_last size block hb size startingOff size hs (le_refl size)⟩

/-- C2 (witness): `total_size = 10`, `block_size = 4` gives lengths
`[4, 4, 2]`: sum 10 and last block `10 mod 4 = 2`. -/
theorem c2_cycle_lengths_witness :
    (0:Nat) < 4 ∧ (0:Nat) < 10 ∧
      ((osbCycle 10 4 0).map Prod.snd).sum = 10 ∧
      ((osbCycle 10 4 0).map Prod.snd).getLast? = some 2 := by
  have h := c2_cycle_lengths 10 4 0 (by decide) (by decide)
  exact ⟨by decide, by decide, h.1, by simpa using h.2.2⟩

/-! ### Claims C5, C6 and C8: the driver's statistics and partitioning -/

/-- C5 (counterexample): the claim computes iops as
`(total_bytes / block_size) * 1_000_000 / elapsed`, but `main` computes
`(1000000LL * total / cfg.block_size) / duration.count()`, multiplying
before the integer division by `block_size`.  With `total = 6`,
`block_size = 4`, `elapsed = 1` the code yields 1 500 000 while the claim
demands 1 000 000. -/
theorem c5_counterexample :
    ¬ benchIops (benchTotal 6 1 1) 4 1 = benchTotal 6 1 1 / 4 * 1000000 / 1 := by
  decide

/-- C5 (amended): with the 64-bit intermediate products not overflowing
and a positive elapsed time, `total_bytes = total_size * repeats * threads`
exactly, `rate = total_bytes * 1_000_000 / elapsed_microseconds`, and
`iops = (1_000_000 * total_bytes / block_size) / elapsed_microseconds`
(the code multiplies by 1 000 000 before dividing by the block size). -/
theorem c5_stats_amended (size repeats threads block elapsed : Nat)
    (h1 : size * repeats * threads < 2 ^ 64)
    (h2 : 1000000 * (size * repeats * threads) < 2 ^ 64)
    (he : 0 < elapsed) :
    benchTotal size repeats threads = size * repeats * threads ∧
    benchRate (benchTotal size repeats threads) elapsed =
      size * repeats * threads * 1000000 / elapsed ∧
    benchIops (benchTotal size repeats threads) block elapsed =
      1000000 * (size * repeats * threads) / block / elapsed := by
  have ht : benchTotal size repeats threads = size * repeats * threads :=
    Nat.mod_eq_of_lt h1
  refine ⟨ht, ?_, ?_⟩
  · unfold benchRate
    rw [ht, Nat.mod_eq_of_lt h2, Nat.mul_comm]
  · unfold benchIops
    rw [ht, Nat.mod_eq_of_lt h2]

/-- C5 (witness): 1 MiB, one repeat, one thread, one second: the rate is
1 048 576 bytes per second, as in the spec's worked example. -/
theorem c5_stats_witness :
    (1048576 * 1 * 1 : Nat) < 2 ^ 64 ∧
      (1000000 * (1048576 * 1 * 1) : Nat) < 2 ^ 64 ∧ (0:Nat) < 1000000 ∧
      benchRate (benchTotal 1048576 1 1) 1000000 = 1048576 * 1 * 1 * 1000000 / 1000000 :=
  ⟨by decide, by decide, by decide,
   (c5_stats_amended 1048576 1 1 4096 1000000 (by decide) (by decide) (by decide)).2.1⟩

/-- C6 (code bug): `main` divides by `duration.count()` with no guard, so
a zero elapsed time is not "a defined failure": in C++ the integer
division by zero is undefined behavior (typically a SIGFPE crash), and in
this total `Nat` model it silently yields the junk value 0 — there is no
error path in the code.  The theorem evaluates the embedded computation at
the failing input (default configuration, elapsed = 0). -/
theorem c6_zero_elapsed_division :
    benchRate (benchTotal 1048576 1 1) 0 = 0 ∧
      benchIops (benchTotal 1048576 1 1) 4096 0 = 0 := by
  decide

/-- C8 (counterexample): with `total_size = 12`, `thread_count = 5`,
`block_size = 2` both `total_size` and `total_size / thread_count` are
multiples of `block_size`, yet worker 3 starts at
`3 * 12 / 5 = 7`, which is not block-aligned. -/
theorem c8_counterexample :
    (12:Nat) % 2 = 0 ∧ (12:Nat) / 5 % 2 = 0 ∧ ¬ startingOffset 12 5 3 % 2 = 0 := by
  decide

/-- C8 (amended): for positive `total_size` and `thread_count` (with the
`size_t` product `i * total_size` not wrapping), each starting offset
`i * total_size / thread_count` with `i < thread_count` is strictly less
than `total_size`; the offsets are non-decreasing in `i`; and when
`thread_count` divides `total_size` and `total_size / thread_count` is a
multiple of `block_size`, every offset is block-aligned. -/
theorem c8_offsets_amended (s t b : Nat) (hs : 0 < s) (ht : 0 < t)
    (hw : (t - 1) * s < 2 ^ 64) :
    (∀ i, i < t → startingOffset s t i < s) ∧
    (∀ i j, i ≤ j → j < t → startingOffset s t i ≤ startingOffset s t j) ∧
    (t ∣ s → b ∣ s / t → ∀ i, i < t → b ∣ startingOffset s t i) := by
  have hmod : ∀ i, i < t → i * s % 2 ^ 64 = i * s := by
    intro i hi
    apply Nat.mod_eq_of_lt
    calc i * s ≤ (t - 1) * s := Nat.mul_le_mul_right s (by omega)
      _ < 2 ^ 64 := hw
  refine ⟨?_, ?_, ?_⟩
  · intro i hi
    unfold startingOffset
    rw [hmod i hi, Nat.div_lt_iff_lt_mul ht]
    exact lt_of_lt_of_eq ((Nat.mul_lt_mul_right hs).mpr hi) (Nat.mul_comm t s)
  · intro i j hij hj
    unfold startingOffset
    rw [hmod i (by omega), hmod j hj]
    exact Nat.div_le_div_right (Nat.mul_le_mul_right s hij)
  · intro hts hbs i hi
    unfold startingOffset
    rw [hmod i hi, Nat.mul_div_assoc i hts]
    exact Dvd.dvd.mul_left hbs i

/-- C8 (witness): the spec's end-to-end case `--size 64K --threads 4`
with 16 KiB blocks: worker 1 starts at 16384, below 65536 and aligned. -/
theorem c8_offsets_witness :
    (0:Nat) < 65536 ∧ (0:Nat) < 4 ∧ ((4:Nat) - 1) * 65536 < 2 ^ 64 ∧
      startingOffset 65536 4 1 < 65536 ∧ (16384:Nat) ∣ startingOffset 65536 4 1 :=
  ⟨by decide, by decide, by decide,
   (c8_offsets_amended 65536 4 16384 (by decide) (by decide) (by decide)).1 1 (by decide),
   (c8_offsets_amended 65536 4 16384 (by decide) (by decide) (by decide)).2.2
     (by decide) (by decide) 1 (by decide)⟩

/-! ### Claims C7 and C10: the display formatter -/

/-- Full characterisation of the display loop from an arbitrary starting
`unit ≤ 5`: the loop only shifts (each iteration satisfied the continue
condition `fmtCont`, never more than `5 - unit` times), and on exit either
the continue condition fails or the `unit < max_units` cap was hit. -/
lemma formatLoop_spec :
    ∀ fuel unit v, 5 - unit ≤ fuel → unit ≤ 5 →
      unit ≤ (formatLoop v unit).2 ∧
      (formatLoop v unit).2 ≤ 5 ∧
      (formatLoop v unit).1 = v >>> (10 * ((formatLoop v unit).2 - unit)) ∧
      (∀ k, unit ≤ k → k < (formatLoop v unit).2 → fmtCont (v >>> (10 * (k - unit)))) ∧
      ((formatLoop v unit).2 < 5 → ¬ fmtCont (formatLoop v unit).1) := by
  intro fuel
  induction fuel with
  | zero =>
    intro unit v hf hu
    have h5 : unit = 5 := by omega
    subst h5
    rw [formatLoop, dif_neg (by omega)]
    refine ⟨le_refl _, le_refl _, by simp, ?_, ?_⟩
    · intro k h1 h2; omega
    · intro h; omega
  | succ f ih =>
    intro unit v hf hu
    rw [formatLoop]
    by_cases hc : 1024 ≤ v ∧ unit < 5
    · rw [dif_pos hc]
      by_cases hbrk : v < 1048576 ∧ v % 1024 ≠ 0
      · rw [if_pos hbrk]
        refine ⟨le_refl _, by omega, by simp, ?_, ?_⟩
        · intro k h1 h2; omega
        · intro _ hcont
          rcases hcont.2 with hm | hb
          · exact hbrk.2 hm
          · omega
      · rw [if_neg hbrk]
        obtain ⟨ih1, ih2, ih3, ih4, ih5⟩ := ih (unit + 1) (v >>> 10) (by omega) (by omega)
        refine ⟨by omega, ih2, ?_, ?_, ih5⟩
        · rw [ih3, ← Nat.shiftRight_add,
            show 10 + 10 * ((formatLoop (v >>> 10) (unit + 1)).2 - (unit + 1)) =
              10 * ((formatLoop (v >>> 10) (unit + 1)).2 - unit) from by omega]
        · intro k hk1 hk2
          rcases Nat.eq_or_lt_of_le hk1 with rfl | hk1'
          · rw [Nat.sub_self, Nat.mul_zero, Nat.shiftRight_zero]
            refine ⟨hc.1, ?_⟩
            by_cases hv : v < 1048576
            · left
              by_contra hm
              exact hbrk ⟨hv, hm⟩
            · right; omega
          · have hmem := ih4 k (by omega) hk2
            rw [← Nat.shiftRight_add,
              show 10 + 10 * (k - (unit + 1)) = 10 * (k - unit) from by omega] at hmem
            exact hmem
    · rw [dif_neg hc]
      refine ⟨le_refl _, hu, by simp, ?_, ?_⟩
      · intro k h1 h2; omega
      · intro hlt hcont
        exact hc ⟨hcont.1, hlt⟩

/-- The display loop applied to an amount of `2 ^ 50` bytes (1 PiB):
`2^50 → 2^40 → 2^30 → 2^20 → 2^10 → 1` performs five divisions, so the
final unit index is 5. -/
lemma formatLoop_pow50 : formatLoop (2 ^ 50) 0 = (1, 5) := by
  rw [formatLoop]
  norm_num [Nat.shiftRight_eq_div_pow]
  rw [formatLoop]
  norm_num [Nat.shiftRight_eq_div_pow]
  rw [formatLoop]
  norm_num [Nat.shiftRight_eq_div_pow]
  rw [formatLoop]
  norm_num [Nat.shiftRight_eq_div_pow]
  rw [formatLoop]
  norm_num [Nat.shiftRight_eq_div_pow]
  rw [formatLoop]
  norm_num

/-- C7 (counterexample): at `v = 2 ^ 50` the loop ends with unit index 5,
and `units[5]` is not an entry of the five-element table — the rendering
reads out of bounds (modelled as `none`) instead of producing one of
B/KB/MB/GB/TB. -/
theorem c7_counterexample : formatBytes (2 ^ 50) = none := by
  simp only [formatBytes]
  rw [formatLoop_pow50]
  rfl

/-- C7 (amended): for every byte value `v < 2 ^ 50` the loop divides by
1024 exactly while `v ≥ 1024` and (`v` is a multiple of 1024 or
`v ≥ 1 MiB`), stops as soon as a division would discard non-zero
low-order bytes below the mebibyte threshold, ends with unit index at
most 4, and renders `"<integer> <unit>"` with a unit drawn from the table
{B, KB, MB, GB, TB}. -/
theorem c7_format_amended (v : Nat) (hv : v < 2 ^ 50) :
    (formatLoop v 0).2 ≤ 4 ∧
    (formatLoop v 0).1 = v >>> (10 * (formatLoop v 0).2) ∧
    (∀ k, k < (formatLoop v 0).2 → fmtCont (v >>> (10 * k))) ∧
    ¬ fmtCont (formatLoop v 0).1 ∧
    (∃ name, unitsTable[(formatLoop v 0).2]? = some name ∧
      formatBytes v = some (toString (formatLoop v 0).1 ++ " " ++ name)) := by
  obtain ⟨h1, h2, h3, h4, h5⟩ := formatLoop_spec 5 0 v (by omega) (by omega)
  have hle4 : (formatLoop v 0).2 ≤ 4 := by
    rcases Nat.lt_or_ge (formatLoop v 0).2 5 with h | h
    · omega
    · exfalso
      have h25 : (formatLoop v 0).2 = 5 := by omega
      have hcont := h4 4 (by omega) (by omega)
      have hge : 1024 ≤ v >>> (10 * (4 - 0)) := hcont.1
      rw [show 10 * (4 - 0) = 40 from by norm_num, Nat.shiftRight_eq_div_pow] at hge
      have : 1024 * 2 ^ 40 ≤ v := (Nat.le_div_iff_mul_le (Nat.two_pow_pos 40)).mp hge
      norm_num at this
      omega
  refine ⟨hle4, by simpa using h3, ?_, h5 (by omega), ?_⟩
  · intro k hk
    simpa using h4 k (by omega) hk
  · have hulen : (formatLoop v 0).2 < unitsTable.length := by
      simp only [unitsTable, List.length_cons, List.length_nil]
      omega
    refine ⟨unitsTable[(formatLoop v 0).2], List.getElem?_eq_getElem hulen, ?_⟩
    simp [formatBytes, List.getElem?_eq_getElem hulen]

/-- C7 (witness): 2 KiB renders as "2 KB". -/
theorem c7_format_witness :
    (2048:Nat) < 2 ^ 50 ∧ (formatLoop 2048 0).2 ≤ 4 :=
  ⟨by decide, (c7_format_amended 2048 (by decide)).1⟩

/-- C10 (code bug): for `v = 2 ^ 50` the guard `unit < max_units` still
admits a fifth division, so the loop ends with `unit = 5` and the access
`units[unit]` into the five-element table is out of bounds, contradicting
the claim that the index is always at most 4. -/
theorem c10_unit_index_out_of_bounds : (formatLoop (2 ^ 50) 0).2 = 5 := by
  rw [formatLoop_pow50]

/-! ### Claim C9: the completion handshake never misses a wakeup -/

/-- C9: over all interleavings of one `signal()` (`C_NotifyCond::finish`)
and one `wait()` (`cond.wait(lock, pred)`): the reachable-state set is
closed; every step decreases a rank, so every run terminates; the only
stuck state is full completion (`wait()` has returned), so no reachable
state leaves the waiter asleep after the signal — the `done` flag is set
and tested under the same mutex, so no wakeup is missed; and in the
interleaving where the signal completes before the wait begins
(`afterSignal`), the waiter's two remaining steps are deterministic:
acquire the mutex, observe `done`, and return immediately — it never
reaches the sleeping state. -/
theorem c9_gate_no_missed_wakeup :
    (gateInit ∈ gateReach) ∧
    (∀ g ∈ gateReach, ∀ g' ∈ gateNext g, g' ∈ gateReach) ∧
    (∀ g ∈ gateReach, ∀ g' ∈ gateNext g, gateRank g' < gateRank g) ∧
    (∀ g ∈ gateReach, gateNext g = [] → g.wtr = .wDone ∧ g.sig = .sDone) ∧
    (∀ g ∈ gateReach, ¬(g.wtr = .wSleep ∧ g.sig = .sDone)) ∧
    afterSignal ∈ gateReach ∧
    gateNext afterSignal = [⟨true, .byWtr, .sDone, .w1⟩] ∧
    gateNext ⟨true, .byWtr, .sDone, .w1⟩ = [⟨true, .free, .sDone, .wDone⟩] ∧
    gateNext ⟨true, .free, .sDone, .wDone⟩ = [] := by
  decide

/-- C9 (witness): the rank strictly drops on the waiter's immediate-return
step out of the signalled state. -/
theorem c9_gate_witness :
    gateRank ⟨true, .byWtr, .sDone, .w1⟩ < gateRank afterSignal :=
  c9_gate_no_missed_wakeup.2.2.1 afterSignal (by decide)
    ⟨true, .byWtr, .sDone, .w1⟩ (by decide)
